import Mathlib

/-!
Shallow embedding of the MetaFs upload pipeline (`src/lib/metafs.ts`) and the
asset-pointer construction (`src/components/FileTree/MetaTree.vue`).

Amounts are integer satoshis (`Nat`).  The external wallet, signer and
finalizer are modelled as explicit function / data parameters, so every
pipeline stage becomes a pure function of its inputs.  Fee arithmetic uses
exact rationals (`ℚ`) for the fee rate and `Int.ceil` for `Math.ceil`.
-/

namespace MetaFs

/-- A locking script, abstracted by the address it pays to.
`toAddress = some a` models `script.toAddress(network)` succeeding with `a`;
`none` models the decode throwing (the `try/catch` + `continue` path in
`mergeUTXOs`). -/
structure Script where
  toAddress : Option String
deriving DecidableEq, Repr

/-- `mvc.Script.buildPublicKeyHashOut(address)`: the P2PKH locking script for
an address, which decodes back to exactly that address. -/
def buildPublicKeyHashOut (address : String) : Script :=
  ⟨some address⟩

/-- A wallet-reported spendable output, as returned by
`window.metaidwallet.getUtxos()`. -/
structure WalletUTXO where
  txid : String
  outIndex : Nat
  address : String
  value : Nat
deriving DecidableEq, Repr

/-- The selector-internal UTXO shape (`interface UTXO` in the source). -/
structure UTXO where
  txId : String
  outputIndex : Nat
  script : Script
  satoshis : Nat
deriving DecidableEq, Repr

/-- `interface UTXOData`: selected outputs plus their accumulated amount. -/
structure UTXOData where
  utxos : List UTXO
  totalAmount : Nat
deriving DecidableEq, Repr

/-- A transaction output: locking script plus amount, as read back from a
parsed transaction (`output.script`, `output.satoshis`). -/
structure TxOutput where
  script : Script
  satoshis : Nat
deriving DecidableEq, Repr

/-- The declared (unfunded, unsigned) merge transaction handed to the wallet
`pay` delegate: version plus the declared outputs. -/
structure MergeTxDecl where
  version : Nat
  outputs : List TxOutput
deriving DecidableEq, Repr

/-- The signed transaction coming back from the wallet `pay` delegate:
its id, raw hex, and parsed outputs. -/
structure PayResponse where
  txId : String
  hex : String
  outputs : List TxOutput
deriving DecidableEq, Repr

/-- `interface MergeResult`: the merged singleton UTXO set plus the merge
transaction id and raw hex. -/
structure MergeResult where
  utxos : List UTXO
  totalAmount : Nat
  mergeTxId : String
  mergeTxHex : String
deriving DecidableEq, Repr

/-- `interface UploadResult`. -/
structure UploadResult where
  txId : String
  pinId : Option String
  status : Option String
deriving DecidableEq, Repr

/-- `interface DirectUploadResponse`: the finalizer response body. -/
structure DirectUploadResponse where
  code : Int
  message : Option String
  data : UploadResult
deriving DecidableEq, Repr

/-- The transport-level view of the finalizer `fetch` response:
`response.ok`, `response.status`, and the parsed JSON body. -/
structure HttpResponse where
  ok : Bool
  status : Nat
  body : DirectUploadResponse
deriving DecidableEq, Repr

/-- The errors thrown by the pipeline stages, one constructor per distinct
`throw new Error(...)` site, carrying the data interpolated into the
message. -/
inductive MetaFsError
  | noFunds
  | noUsableFunds
  | insufficientBalance (needed available : Nat)
  | payUnsupported
  | mergeFailed (msg : String)
  | sighashRequiresOne (count : Nat)
  | signatureMissing
  | httpError (status : Nat)
  | uploadFailed (serverMessage : String)
deriving DecidableEq, Repr

/-- The user-visible message of each error, exactly as the source builds it
(inner `throw` message wrapped by the enclosing catch block's prefix). -/
def MetaFsError.message : MetaFsError → String
  | .noFunds => "Failed to get UTXOs: No available UTXOs in wallet"
  | .noUsableFunds =>
      "Failed to get UTXOs: No UTXOs larger than 600 satoshis available in wallet"
  | .insufficientBalance needed available =>
      "Failed to get UTXOs: Insufficient balance! Need " ++ Nat.repr needed ++
        " satoshis, but only have " ++ Nat.repr available ++ " satoshis"
  | .payUnsupported => "Failed to merge UTXOs: Wallet does not support pay method"
  | .mergeFailed msg => "Failed to merge UTXOs: " ++ msg
  | .sighashRequiresOne count =>
      "Failed to build/sign MVC transaction: SIGHASH_SINGLE requires exactly 1 UTXO, got " ++
        Nat.repr count
  | .signatureMissing => "Failed to build/sign MVC transaction: Failed to get signature"
  | .httpError status => "DirectUpload failed: HTTP Error: " ++ Nat.repr status
  | .uploadFailed serverMessage => "DirectUpload failed: " ++ serverMessage

/-! ### Fee Estimator (`estimateUploadFee`) -/

/-- `metadataSize` from the source: `6 + 10 + finalPath.length + 10 + 10 + 50`
with `finalPath = '/file'` (the `fileHost` constant is empty). -/
def metadataSize : Nat := 6 + 10 + ("/file".length) + 10 + 10 + 50

/-- `estimatedTxSize`: `baseSize + inputSize + outputSize * 2 + opReturnSize`
where `opReturnSize = opReturnOverhead + metadataSize + fileSize`. -/
def estimatedTxSize (fileSize : Nat) : Nat :=
  200 + 150 + 34 * 2 + (50 + metadataSize + fileSize)

/-- `estimateUploadFee`, as a function of the file size and the fee rate the
chain store reports.  `chainStore.mvcFeeRate() || 1` replaces a (falsy) zero
rate by 1; `Math.ceil` is `Int.ceil` over exact rationals and the 20% margin
is the factor 6/5. -/
def estimateUploadFee (fileSize : Nat) (reportedFeeRate : ℚ) : ℤ :=
  let feeRate : ℚ := if reportedFeeRate = 0 then 1 else reportedFeeRate
  let estimatedFee : ℤ := ⌈(estimatedTxSize fileSize : ℚ) * feeRate⌉
  ⌈(estimatedFee : ℚ) * (6 / 5)⌉

/-- The fee formula exactly as the specification words it: no coercion of a
zero rate, `marginedFee = ceil(ceil(estimatedTxSize * rate) * 1.2)`.
Kept separate from `estimateUploadFee` so the two can be compared. -/
def specMarginedFee (fileSize : Nat) (rate : ℚ) : ℤ :=
  ⌈((⌈(estimatedTxSize fileSize : ℚ) * rate⌉ : ℤ) : ℚ) * (6 / 5)⌉

/-! ### UTXO Selector (`getWalletUTXOs`) -/

/-- Conversion of a wallet-reported output to the selector's UTXO shape,
deriving the locking script from the owning address
(`mvc.Script.buildPublicKeyHashOut(utxo.address)`). -/
def toUTXO (u : WalletUTXO) : UTXO :=
  { txId := u.txid, outputIndex := u.outIndex
    script := buildPublicKeyHashOut u.address, satoshis := u.value }

/-- The dust filter: `utxos.filter((utxo) => utxo.value > filler)` with
`filler = 600`. -/
def dustFiltered (utxos : List WalletUTXO) : List WalletUTXO :=
  utxos.filter (fun u => decide (600 < u.value))

/-- Descending-by-amount comparison used by
`fillerUtxos.sort((a, b) => b.value - a.value)`. -/
def byValueDesc (a b : WalletUTXO) : Prop := b.value ≤ a.value

instance : DecidableRel byValueDesc := fun a b => Nat.decLe b.value a.value

instance : IsTotal WalletUTXO byValueDesc :=
  ⟨fun a b => Nat.le_total b.value a.value⟩

instance : IsTrans WalletUTXO byValueDesc :=
  ⟨fun _ _ _ hab hbc => le_trans hbc hab⟩

/-- The stable descending sort of the survivors (JavaScript `Array.sort` is
stable; insertion sort realizes the same deterministic tie order). -/
def sortDesc (l : List WalletUTXO) : List WalletUTXO :=
  List.insertionSort byValueDesc l

/-- The greedy accumulation loop of `getWalletUTXOs`: push each output,
add its value, and break as soon as `totalAmount >= requiredAmount + 1`. -/
def selectLoop (requiredAmount : Nat) :
    List WalletUTXO → List UTXO → Nat → List UTXO × Nat
  | [], acc, total => (acc, total)
  | u :: us, acc, total =>
      let total' := total + u.value
      if requiredAmount + 1 ≤ total' then (acc ++ [toUTXO u], total')
      else selectLoop requiredAmount us (acc ++ [toUTXO u]) total'

/-- `getWalletUTXOs`, as a function of the required amount and the outputs
the wallet reports. -/
def getWalletUTXOs (requiredAmount : Nat) (walletUtxos : List WalletUTXO) :
    Except MetaFsError UTXOData :=
  if walletUtxos.isEmpty then .error .noFunds
  else if (dustFiltered walletUtxos).isEmpty then .error .noUsableFunds
  else
    let sortedUtxos := sortDesc (dustFiltered walletUtxos)
    let r := selectLoop requiredAmount sortedUtxos [] 0
    if r.2 < requiredAmount + 1 then
      .error (.insufficientBalance (requiredAmount + 1) r.2)
    else .ok ⟨r.1, r.2⟩

/-! ### Consolidator (`mergeUTXOs`) -/

/-- The linear scan of `mergeUTXOs` over the signed transaction's outputs,
looking for the first one whose locking script decodes to the caller's own
address; `i` is the index of the head of the remaining list. -/
def findMergedOutputAux (ownAddress : String) :
    Nat → List TxOutput → Option (Nat × TxOutput)
  | _, [] => none
  | i, o :: os =>
      if o.script.toAddress = some ownAddress then some (i, o)
      else findMergedOutputAux ownAddress (i + 1) os

/-- The output-matching step: index and content of the first output paying
the caller's own address, `none` when no output matches. -/
def findMergedOutput (ownAddress : String) (outputs : List TxOutput) :
    Option (Nat × TxOutput) :=
  findMergedOutputAux ownAddress 0 outputs

/-- `mergeUTXOs`.  The first parameter is the selection result; the source
names it `_utxoData` and never reads it.  `pay` models
`window.metaidwallet.pay`: `none` when the wallet does not expose the method
(`typeof pay !== 'function'`), otherwise a function from the declared merge
transaction to the wallet's signed response (or a rejection message).  The
declared transaction has version 10 and the single output
`(ownAddress, estimatedFee)` added by `mergeTx.to`. -/
def mergeUTXOs (ownAddress : String) (_utxoData : UTXOData) (estimatedFee : Nat)
    (pay : Option (MergeTxDecl → Except String PayResponse)) :
    Except MetaFsError MergeResult :=
  match pay with
  | none => .error .payUnsupported
  | some payFn =>
    let mergeTx : MergeTxDecl :=
      { version := 10, outputs := [⟨buildPublicKeyHashOut ownAddress, estimatedFee⟩] }
    match payFn mergeTx with
    | .error msg => .error (.mergeFailed msg)
    | .ok resp =>
      match resp.outputs with
      | [] =>
          -- the fallback reads `parsedMergeTx.outputs[0].satoshis`; on an
          -- empty output list the thrown TypeError is caught and wrapped
          .error (.mergeFailed "Cannot read properties of undefined")
      | o0 :: _ =>
        let merged : Nat × TxOutput :=
          match findMergedOutput ownAddress resp.outputs with
          | some (i, o) => (i, o)
          | none => (0, o0)
        let newUtxo : UTXO :=
          { txId := resp.txId, outputIndex := merged.1
            script := merged.2.script, satoshis := merged.2.satoshis }
        .ok { utxos := [newUtxo], totalAmount := newUtxo.satoshis
              mergeTxId := resp.txId, mergeTxHex := resp.hex }

/-! ### Base-Transaction Builder (`buildAndSignBaseTx`) -/

/-- The unsigned base transaction: version, inputs (as UTXO references) and
outputs. -/
structure UnsignedTx where
  version : Nat
  inputs : List UTXO
  outputs : List TxOutput
deriving DecidableEq, Repr

/-- The request handed to `window.metaidwallet.signTransaction`. -/
structure SignTransactionReq where
  tx : UnsignedTx
  address : String
  inputIndex : Nat
  scriptHex : Script
  satoshis : Nat
  sigtype : Nat
deriving DecidableEq, Repr

/-- The signer's answer: signature and public key. -/
structure SignResult where
  sig : String
  publicKey : String
deriving DecidableEq, Repr

/-- The two-element P2PKH unlocking script `<sig> <pubkey>` built by
`mvc.Script.buildPublicKeyHashIn(publicKey, sig, sigtype)`. -/
structure UnlockingScript where
  sig : String
  publicKey : String
  sigtype : Nat
deriving DecidableEq, Repr

/-- One signed input: the spent UTXO together with its unlocking script. -/
structure SignedInput where
  utxo : UTXO
  unlockingScript : UnlockingScript
deriving DecidableEq, Repr

/-- The fully signed base transaction (the serialized `signedTxHex`). -/
structure SignedTx where
  version : Nat
  inputs : List SignedInput
  outputs : List TxOutput
deriving DecidableEq, Repr

/-- `0x3 | 0x80 | 0x40`: SIGHASH_SINGLE combined with ANYONECANPAY. -/
def sigtypeSingleAnyoneCanPay : Nat := 0x3 ||| 0x80 ||| 0x40

/-- The unsigned base transaction built from one UTXO: version 10, the single
input, and one 1-satoshi output paying the uploader's own address. -/
def baseUnsignedTx (ownAddress : String) (utxo : UTXO) : UnsignedTx :=
  { version := 10, inputs := [utxo]
    outputs := [⟨buildPublicKeyHashOut ownAddress, 1⟩] }

/-- The signing request `buildAndSignBaseTx` sends for input 0. -/
def baseSignRequest (ownAddress : String) (utxo : UTXO) : SignTransactionReq :=
  { tx := baseUnsignedTx ownAddress utxo, address := ownAddress, inputIndex := 0
    scriptHex := utxo.script, satoshis := utxo.satoshis
    sigtype := sigtypeSingleAnyoneCanPay }

/-- The final signed base transaction assembled from the signer's answer. -/
def signedBaseTx (ownAddress : String) (utxo : UTXO) (r : SignResult) : SignedTx :=
  { version := 10
    inputs := [⟨utxo, ⟨r.sig, r.publicKey, sigtypeSingleAnyoneCanPay⟩⟩]
    outputs := [⟨buildPublicKeyHashOut ownAddress, 1⟩] }

/-- `buildAndSignBaseTx`.  `signTransaction` models the wallet signer;
`none` models the signer returning nothing. -/
def buildAndSignBaseTx (ownAddress : String) (utxoData : UTXOData)
    (signTransaction : SignTransactionReq → Option SignResult) :
    Except MetaFsError SignedTx :=
  match utxoData.utxos with
  | [utxo] =>
      match signTransaction (baseSignRequest ownAddress utxo) with
      | none => .error .signatureMissing
      | some r => .ok (signedBaseTx ownAddress utxo r)
  | other => .error (.sighashRequiresOne other.length)

/-! ### Upload Coordinator (`directUpload`) -/

/-- The response handling of `directUpload`: a non-ok transport status throws
`HTTP Error: {status}`, a non-zero body code throws the body's message
(`new Error(undefined)` yields the empty message), and only code 0 returns
the payload. -/
def directUpload (response : HttpResponse) : Except MetaFsError UploadResult :=
  if !response.ok then .error (.httpError response.status)
  else if response.body.code ≠ 0 then
    .error (.uploadFailed (response.body.message.getD ""))
  else .ok response.body.data

/-! ### Asset pointer (`MetaTree.vue`, `uploadFile`) -/

/-- The pinId the uploader returns: `metafile://{txId}i0`. -/
def uploadFilePinId (txId : String) : String :=
  "metafile://" ++ txId ++ "i0"

/-- The general asset-pointer format
`{scheme}://{finalTransactionId}i{outputIndex}` with the index rendered in
decimal. -/
def mkAssetPointer (scheme txId : String) (outputIndex : Nat) : String :=
  scheme ++ "://" ++ txId ++ "i" ++ Nat.repr outputIndex

/-- The numeric value of a decimal digit character. -/
def parseDigit (c : Char) : Nat := c.toNat - '0'.toNat

/-- Parse a nonempty all-digit character list as a decimal number. -/
def parseDecimal (l : List Char) : Option Nat :=
  if l.isEmpty then none
  else if l.all Char.isDigit then
    some (l.foldl (fun a c => a * 10 + parseDigit c) 0)
  else none

/-- Split a character list at the last occurrence of `c`:
`splitAtLast c l = some (l₁, l₂)` when `l = l₁ ++ c :: l₂` with `c ∉ l₂`. -/
def splitAtLast (c : Char) (l : List Char) : Option (List Char × List Char) :=
  let rev := l.reverse
  match rev.dropWhile (fun x => decide (x ≠ c)) with
  | [] => none
  | _ :: prefixRev =>
      some (prefixRev.reverse, (rev.takeWhile (fun x => decide (x ≠ c))).reverse)

/-- Modelled from the spec: the downstream decoder of an asset pointer is not
part of this repository; per the spec's round-trip property it strips the
`{scheme}://` prefix and splits the remainder at its last letter i,
reading the trailing digits as the output index. -/
def decodeAssetPointer (scheme : String) (pointer : String) : Option (String × Nat) :=
  let preData := (scheme ++ "://").data
  let s := pointer.data
  if s.take preData.length = preData then
    match splitAtLast 'i' (s.drop preData.length) with
    | none => none
    | some (txChars, idxChars) =>
      match parseDecimal idxChars with
      | none => none
      | some n => some (⟨txChars⟩, n)
  else none

/-- Total value of a list of wallet outputs. -/
def sumVals (l : List WalletUTXO) : Nat := (l.map WalletUTXO.value).sum

/-- Total amount of a list of selector UTXOs. -/
def sumSat (l : List UTXO) : Nat := (l.map UTXO.satoshis).sum

/-- The decimal digit characters of `n`, most significant first, prepended to
`ds`; mirrors `Nat.toDigitsCore` at base 10 with the fuel removed. -/
def reprDigitsAux (n : Nat) (ds : List Char) : List Char :=
  if h : n / 10 = 0 then Nat.digitChar (n % 10) :: ds
  else reprDigitsAux (n / 10) (Nat.digitChar (n % 10) :: ds)
decreasing_by
  exact Nat.div_lt_self (Nat.pos_of_ne_zero (fun h0 => h (by simp [h0]))) (by norm_num)

/-- Sample wallet report used to witness the selector theorems
(spec scenario: outputs 5000 and 3000, required 1500). -/
def sampleWallet : List WalletUTXO :=
  [⟨"a", 0, "addr1", 5000⟩, ⟨"b", 1, "addr1", 3000⟩]

/-- Sample wallet report whose outputs are all dust yet whose raw sum covers
the requirement (spec scenario for the dust filter). -/
def sampleDustWallet : List WalletUTXO :=
  [⟨"a", 0, "addr1", 550⟩, ⟨"b", 1, "addr1", 560⟩]

/-- Sample spendable output used to witness the builder theorems. -/
def sampleUTXO : UTXO := ⟨"t0", 0, buildPublicKeyHashOut "addr1", 5000⟩

/-- Sample signer answer used to witness the builder theorems. -/
def sampleSignResult : SignResult := ⟨"sighex", "pkhex"⟩

/-- Sample signer that always returns `sampleSignResult`. -/
def sampleSigner : SignTransactionReq → Option SignResult :=
  fun _ => some sampleSignResult

/-- Sample finalizer response carrying an application-level failure
(spec scenario: code 1, message "insufficient fee"). -/
def sampleResponse : HttpResponse :=
  ⟨true, 200, ⟨1, some "insufficient fee", ⟨"txid1", none, none⟩⟩⟩

/-- Sample wallet `pay` delegate that keeps the declared outputs and appends
one change output, as the funding primitive does. -/
def samplePayFn : MergeTxDecl → Except String PayResponse :=
  fun d => .ok ⟨"tx1", "hex1", d.outputs ++ [⟨buildPublicKeyHashOut "addr2", 250⟩]⟩

/-- Sample transaction output paying some other address, used to witness the
index-0 fallback of the output-matching step. -/
def sampleForeignOutput : TxOutput := ⟨⟨some "other"⟩, 700⟩

/-! ## Lemmas about the selector -/

lemma isEmpty_false_of_ne_nil {α : Type} {l : List α} (h : l ≠ []) :
    l.isEmpty = false := by
  cases l with
  | nil => exact absurd rfl h
  | cons a as => rfl

lemma sumVals_nil : sumVals [] = 0 := rfl

lemma sumVals_cons (u : WalletUTXO) (l : List WalletUTXO) :
    sumVals (u :: l) = u.value + sumVals l := by
  simp [sumVals]

lemma sumVals_append (a b : List WalletUTXO) :
    sumVals (a ++ b) = sumVals a + sumVals b := by
  simp [sumVals]

lemma sumSat_map_toUTXO (l : List WalletUTXO) :
    sumSat (l.map toUTXO) = sumVals l := by
  simp [sumSat, sumVals, List.map_map]
  rfl

lemma sortDesc_perm (l : List WalletUTXO) : (sortDesc l).Perm l :=
  List.perm_insertionSort byValueDesc l

lemma sortDesc_sorted (l : List WalletUTXO) :
    List.Sorted byValueDesc (sortDesc l) :=
  List.sorted_insertionSort byValueDesc l

lemma sumVals_sortDesc (l : List WalletUTXO) : sumVals (sortDesc l) = sumVals l :=
  List.Perm.sum_eq (List.Perm.map WalletUTXO.value (sortDesc_perm l))

/-- Full characterization of the greedy accumulation loop: it consumes a
prefix `pre` of the remaining list, returns the accumulated selection and
total, and either stopped because the bound was reached at the last pushed
output (every shorter prefix staying below the bound) or ran out of
outputs below the bound. -/
lemma selectLoop_spec (required : Nat) :
    ∀ (l : List WalletUTXO) (acc : List UTXO) (total : Nat),
      total < required + 1 →
      ∃ pre rest, l = pre ++ rest ∧
        selectLoop required l acc total =
          (acc ++ pre.map toUTXO, total + sumVals pre) ∧
        ((required + 1 ≤ total + sumVals pre ∧
            ∀ k, k < pre.length → total + sumVals (pre.take k) < required + 1) ∨
          (rest = [] ∧ total + sumVals pre < required + 1)) := by
  intro l
  induction l with
  | nil =>
      intro acc total h
      exact ⟨[], [], rfl, by simp [selectLoop, sumVals_nil],
        Or.inr ⟨rfl, by simpa [sumVals_nil] using h⟩⟩
  | cons u us ih =>
      intro acc total h
      by_cases hb : required + 1 ≤ total + u.value
      · refine ⟨[u], us, rfl, ?_, Or.inl ⟨?_, ?_⟩⟩
        · simp [selectLoop, hb, sumVals_cons, sumVals_nil]
        · simpa [sumVals_cons, sumVals_nil] using hb
        · intro k hk
          have hk0 : k = 0 := by simp at hk; omega
          subst hk0
          simpa [sumVals_nil] using h
      · obtain ⟨pre, rest, heq, hrun, hdisj⟩ :=
          ih (acc ++ [toUTXO u]) (total + u.value) (by omega)
        refine ⟨u :: pre, rest, by rw [heq, List.cons_append], ?_, ?_⟩
        · have hstep : selectLoop required (u :: us) acc total =
              selectLoop required us (acc ++ [toUTXO u]) (total + u.value) := by
            simp [selectLoop, hb]
          rw [hstep, hrun]
          simp [sumVals_cons, List.append_assoc, Nat.add_assoc]
        · rcases hdisj with ⟨hge, hmin⟩ | ⟨hrest, hlt⟩
          · left
            constructor
            · simp [sumVals_cons]
              omega
            · intro k hk
              cases k with
              | zero => simpa [sumVals_nil] using h
              | succ j =>
                  have hj : j < pre.length := by
                    simpa using hk
                  have := hmin j hj
                  simp [sumVals_cons]
                  omega
          · right
            refine ⟨hrest, ?_⟩
            simp [sumVals_cons]
            omega

lemma getWalletUTXOs_run (required : Nat) (utxos : List WalletUTXO)
    (hne : utxos ≠ []) (hf : dustFiltered utxos ≠ []) :
    getWalletUTXOs required utxos =
      (if (selectLoop required (sortDesc (dustFiltered utxos)) [] 0).2 < required + 1
       then .error (.insufficientBalance (required + 1)
         (selectLoop required (sortDesc (dustFiltered utxos)) [] 0).2)
       else .ok ⟨(selectLoop required (sortDesc (dustFiltered utxos)) [] 0).1,
         (selectLoop required (sortDesc (dustFiltered utxos)) [] 0).2⟩) := by
  simp only [getWalletUTXOs, isEmpty_false_of_ne_nil hne, isEmpty_false_of_ne_nil hf,
    Bool.false_eq_true, if_false]

/-- Running the selector on a wallet set whose dust filter is nonempty:
either a minimal greedy prefix of the sorted survivors covers
`required + 1` and is returned, or the whole sorted list stays below the
bound and the selector fails with the insufficient-balance error. -/
lemma getWalletUTXOs_eq (required : Nat) (utxos : List WalletUTXO)
    (hf : dustFiltered utxos ≠ []) :
    ∃ pre rest, sortDesc (dustFiltered utxos) = pre ++ rest ∧
      ((required + 1 ≤ sumVals pre ∧
          getWalletUTXOs required utxos = .ok ⟨pre.map toUTXO, sumVals pre⟩ ∧
          ∀ k, k < pre.length → sumVals (pre.take k) < required + 1) ∨
        (rest = [] ∧ sumVals pre < required + 1 ∧
          getWalletUTXOs required utxos =
            .error (.insufficientBalance (required + 1) (sumVals pre)))) := by
  have hne : utxos ≠ [] := by
    intro h0
    apply hf
    rw [h0]
    rfl
  obtain ⟨pre, rest, heq, hrun, hdisj⟩ :=
    selectLoop_spec required (sortDesc (dustFiltered utxos)) [] 0 (by omega)
  refine ⟨pre, rest, heq, ?_⟩
  rw [getWalletUTXOs_run required utxos hne hf, hrun]
  rcases hdisj with ⟨hge, hmin⟩ | ⟨hrest, hlt⟩
  · left
    have hnl : ¬ (0 + sumVals pre < required + 1) := by omega
    refine ⟨?_, ?_, ?_⟩
    · omega
    · simp [hnl]
      omega
    · intro k hk
      have := hmin k hk
      omega
  · right
    have hl : 0 + sumVals pre < required + 1 := by omega
    refine ⟨hrest, ?_, ?_⟩
    · omega
    · simp [hl]
      omega

lemma dustFiltered_idem (l : List WalletUTXO) :
    dustFiltered (dustFiltered l) = dustFiltered l := by
  simp [dustFiltered, List.filter_filter]

/-! ## Claim theorems: UTXO selector -/

/-- C1: the selector sorts the dust-filtered outputs descending by amount,
accumulates them greedily in that order, stops at the first output whose
inclusion reaches `requiredAmount + 1`; on success the returned
`totalAmount` is the sum of the selected outputs and meets the bound, and
when even the whole filtered set stays below the bound it fails with the
insufficient-balance error reporting the required and available totals. -/
theorem getWalletUTXOs_greedy_selection (required : Nat) (utxos : List WalletUTXO)
    (hf : dustFiltered utxos ≠ []) :
    List.Sorted byValueDesc (sortDesc (dustFiltered utxos)) ∧
    (sortDesc (dustFiltered utxos)).Perm (dustFiltered utxos) ∧
    (required + 1 ≤ sumVals (dustFiltered utxos) →
      ∃ pre rest, sortDesc (dustFiltered utxos) = pre ++ rest ∧
        getWalletUTXOs required utxos = .ok ⟨pre.map toUTXO, sumVals pre⟩ ∧
        sumSat (pre.map toUTXO) = sumVals pre ∧
        required + 1 ≤ sumVals pre ∧
        (∀ k, k < pre.length → sumVals (pre.take k) < required + 1)) ∧
    (sumVals (dustFiltered utxos) < required + 1 →
      getWalletUTXOs required utxos =
        .error (.insufficientBalance (required + 1) (sumVals (dustFiltered utxos)))) := by
  obtain ⟨pre, rest, heq, hdisj⟩ := getWalletUTXOs_eq required utxos hf
  have hsum : sumVals (dustFiltered utxos) = sumVals pre + sumVals rest := by
    rw [← sumVals_sortDesc (dustFiltered utxos), heq, sumVals_append]
  refine ⟨sortDesc_sorted _, sortDesc_perm _, ?_, ?_⟩
  · intro hcov
    rcases hdisj with ⟨hge, hok, hmin⟩ | ⟨hrest, hlt, herr⟩
    · exact ⟨pre, rest, heq, hok, sumSat_map_toUTXO pre, hge, hmin⟩
    · exfalso
      subst hrest
      rw [sumVals_nil] at hsum
      omega
  · intro hshort
    rcases hdisj with ⟨hge, hok, hmin⟩ | ⟨hrest, hlt, herr⟩
    · exfalso
      omega
    · subst hrest
      rw [sumVals_nil] at hsum
      have hps : sumVals (dustFiltered utxos) = sumVals pre := by omega
      rw [hps]
      exact herr

/-- Witness for C1 at the spec scenario: outputs 5000 and 3000, required
amount 1500. -/
theorem getWalletUTXOs_greedy_selection_witness :
    dustFiltered sampleWallet ≠ [] ∧
    (List.Sorted byValueDesc (sortDesc (dustFiltered sampleWallet)) ∧
    (sortDesc (dustFiltered sampleWallet)).Perm (dustFiltered sampleWallet) ∧
    (1500 + 1 ≤ sumVals (dustFiltered sampleWallet) →
      ∃ pre rest, sortDesc (dustFiltered sampleWallet) = pre ++ rest ∧
        getWalletUTXOs 1500 sampleWallet = .ok ⟨pre.map toUTXO, sumVals pre⟩ ∧
        sumSat (pre.map toUTXO) = sumVals pre ∧
        1500 + 1 ≤ sumVals pre ∧
        (∀ k, k < pre.length → sumVals (pre.take k) < 1500 + 1)) ∧
    (sumVals (dustFiltered sampleWallet) < 1500 + 1 →
      getWalletUTXOs 1500 sampleWallet =
        .error (.insufficientBalance (1500 + 1) (sumVals (dustFiltered sampleWallet))))) :=
  ⟨by decide, getWalletUTXOs_greedy_selection 1500 sampleWallet (by decide)⟩

/-- C6: the selector drops every output with amount at most 600 before
selecting; it fails with the no-funds error when the wallet reports zero
outputs and with the no-usable-funds error when nothing survives the dust
filter; its outcome is entirely determined by the surviving outputs; and
every selected output has amount above 600. -/
theorem getWalletUTXOs_dust_rules (required : Nat) (utxos : List WalletUTXO) :
    (utxos = [] → getWalletUTXOs required utxos = .error .noFunds) ∧
    (utxos ≠ [] → dustFiltered utxos = [] →
      getWalletUTXOs required utxos = .error .noUsableFunds) ∧
    (∀ u ∈ utxos, u.value ≤ 600 → u ∉ dustFiltered utxos) ∧
    (dustFiltered utxos ≠ [] →
      getWalletUTXOs required utxos = getWalletUTXOs required (dustFiltered utxos)) ∧
    (∀ r, getWalletUTXOs required utxos = .ok r → ∀ u ∈ r.utxos, 600 < u.satoshis) := by
  refine ⟨?_, ?_, ?_, ?_, ?_⟩
  · intro h
    subst h
    rfl
  · intro hne hfe
    simp [getWalletUTXOs, isEmpty_false_of_ne_nil hne, hfe]
  · intro u _ hle
    simp only [dustFiltered, List.mem_filter, decide_eq_true_eq, not_and]
    intro _
    omega
  · intro hf
    have hne : utxos ≠ [] := by
      intro h0
      apply hf
      rw [h0]
      rfl
    have hf2 : dustFiltered (dustFiltered utxos) ≠ [] := by
      rw [dustFiltered_idem]
      exact hf
    rw [getWalletUTXOs_run required utxos hne hf,
      getWalletUTXOs_run required (dustFiltered utxos) hf hf2,
      dustFiltered_idem]
  · intro r hok u hu
    by_cases hfe : dustFiltered utxos = []
    · exfalso
      by_cases hne : utxos = []
      · subst hne
        simp [getWalletUTXOs] at hok
      · rw [show getWalletUTXOs required utxos = .error .noUsableFunds from by
          simp [getWalletUTXOs, isEmpty_false_of_ne_nil hne, hfe]] at hok
        cases hok
    · obtain ⟨pre, rest, heq, hdisj⟩ := getWalletUTXOs_eq required utxos hfe
      rcases hdisj with ⟨hge, hok2, hmin⟩ | ⟨hrest, hlt, herr⟩
      · rw [hok2] at hok
        cases hok
        rw [List.mem_map] at hu
        obtain ⟨w, hw, rfl⟩ := hu
        have hwmem : w ∈ sortDesc (dustFiltered utxos) := by
          rw [heq]
          exact List.mem_append_left rest hw
        have hwf : w ∈ dustFiltered utxos :=
          ((sortDesc_perm (dustFiltered utxos)).mem_iff).mp hwmem
        have := (List.mem_filter.mp hwf).2
        simpa [toUTXO] using of_decide_eq_true this
      · rw [herr] at hok
        cases hok

/-- Witness for C6: two dust outputs (550 and 560) whose raw sum covers the
requirement 1000 + 1, yet the selector fails with the no-usable-funds
error. -/
theorem getWalletUTXOs_dust_rules_witness :
    (sampleDustWallet ≠ [] ∧ dustFiltered sampleDustWallet = []) ∧
    getWalletUTXOs 1000 sampleDustWallet = .error .noUsableFunds ∧
    1000 + 1 ≤ sumVals sampleDustWallet :=
  ⟨⟨by decide, by decide⟩,
    (getWalletUTXOs_dust_rules 1000 sampleDustWallet).2.1 (by decide) (by decide),
    by decide⟩

/-! ## Claim theorems: Base-Transaction Builder -/

/-- C2: the builder rejects any call whose UTXO set has zero or at least two
outputs with the contract-violation error carrying the count, and with
exactly one output it proceeds to the signing phase. -/
theorem buildAndSignBaseTx_single_input_contract (ownAddress : String)
    (utxoData : UTXOData) (signFn : SignTransactionReq → Option SignResult) :
    (utxoData.utxos.length ≠ 1 →
      buildAndSignBaseTx ownAddress utxoData signFn =
        .error (.sighashRequiresOne utxoData.utxos.length)) ∧
    (∀ u t, utxoData = ⟨[u], t⟩ →
      buildAndSignBaseTx ownAddress utxoData signFn =
        match signFn (baseSignRequest ownAddress u) with
        | none => .error .signatureMissing
        | some r => .ok (signedBaseTx ownAddress u r)) := by
  obtain ⟨l, t⟩ := utxoData
  constructor
  · intro hlen
    cases l with
    | nil => rfl
    | cons u us =>
        cases us with
        | nil => exact absurd rfl hlen
        | cons v vs => rfl
  · intro u t' hEq
    cases hEq
    rfl

/-- Witness for C2: calling the builder with zero outputs fails with the
contract violation reporting count 0. -/
theorem buildAndSignBaseTx_single_input_contract_witness :
    ((⟨[], 0⟩ : UTXOData).utxos.length ≠ 1) ∧
    buildAndSignBaseTx "addr1" ⟨[], 0⟩ sampleSigner =
      .error (.sighashRequiresOne 0) :=
  ⟨by decide,
    (buildAndSignBaseTx_single_input_contract "addr1" ⟨[], 0⟩ sampleSigner).1
      (by decide)⟩

/-- C5: on a single-output input with a successful signer, the builder
returns a transaction with exactly one input spending the given output and
exactly one 1-satoshi output paying the uploader's own address; the request
uses SIGHASH_SINGLE combined with ANYONECANPAY (`0x3 | 0x80 | 0x40 = 195`)
and the input's unlocking script is the (signature, public key) pair under
that sigtype. -/
theorem buildAndSignBaseTx_signed_shape (ownAddress : String) (u : UTXO) (t : Nat)
    (signFn : SignTransactionReq → Option SignResult) (r : SignResult)
    (hs : signFn (baseSignRequest ownAddress u) = some r) :
    buildAndSignBaseTx ownAddress ⟨[u], t⟩ signFn = .ok (signedBaseTx ownAddress u r) ∧
    (signedBaseTx ownAddress u r).inputs =
      [⟨u, ⟨r.sig, r.publicKey, sigtypeSingleAnyoneCanPay⟩⟩] ∧
    (signedBaseTx ownAddress u r).outputs = [⟨buildPublicKeyHashOut ownAddress, 1⟩] ∧
    (buildPublicKeyHashOut ownAddress).toAddress = some ownAddress ∧
    (baseSignRequest ownAddress u).sigtype = sigtypeSingleAnyoneCanPay ∧
    sigtypeSingleAnyoneCanPay = 0x3 ||| 0x80 ||| 0x40 ∧
    sigtypeSingleAnyoneCanPay = 195 := by
  refine ⟨?_, rfl, rfl, rfl, rfl, rfl, rfl⟩
  have hrun : buildAndSignBaseTx ownAddress ⟨[u], t⟩ signFn =
      match signFn (baseSignRequest ownAddress u) with
      | none => .error .signatureMissing
      | some r => .ok (signedBaseTx ownAddress u r) := rfl
  rw [hrun, hs]

/-- Witness for C5 at a concrete output and signer. -/
theorem buildAndSignBaseTx_signed_shape_witness :
    sampleSigner (baseSignRequest "addr1" sampleUTXO) = some sampleSignResult ∧
    (buildAndSignBaseTx "addr1" ⟨[sampleUTXO], 5000⟩ sampleSigner =
        .ok (signedBaseTx "addr1" sampleUTXO sampleSignResult) ∧
      (signedBaseTx "addr1" sampleUTXO sampleSignResult).inputs =
        [⟨sampleUTXO,
          ⟨sampleSignResult.sig, sampleSignResult.publicKey, sigtypeSingleAnyoneCanPay⟩⟩] ∧
      (signedBaseTx "addr1" sampleUTXO sampleSignResult).outputs =
        [⟨buildPublicKeyHashOut "addr1", 1⟩] ∧
      (buildPublicKeyHashOut "addr1").toAddress = some "addr1" ∧
      (baseSignRequest "addr1" sampleUTXO).sigtype = sigtypeSingleAnyoneCanPay ∧
      sigtypeSingleAnyoneCanPay = 0x3 ||| 0x80 ||| 0x40 ∧
      sigtypeSingleAnyoneCanPay = 195) :=
  ⟨rfl, buildAndSignBaseTx_signed_shape "addr1" sampleUTXO 5000 sampleSigner
    sampleSignResult rfl⟩

/-! ## Claim theorems: Consolidator parameter independence -/

/-- C10: `mergeUTXOs` never reads its UTXO-set parameter, so for the same
own address, fee estimate and wallet delegate its result is identical on
any two selections. -/
theorem mergeUTXOs_ignores_selection (ownAddress : String) (fee : Nat)
    (pay : Option (MergeTxDecl → Except String PayResponse))
    (u1 u2 : UTXOData) :
    mergeUTXOs ownAddress u1 fee pay = mergeUTXOs ownAddress u2 fee pay := rfl

/-! ## Claim theorems: Upload Coordinator -/

/-- C8: a non-ok transport status is a terminal failure carrying the HTTP
status; an ok transport status with a non-zero body code is a terminal
failure whose surfaced message carries the server-supplied message verbatim
after the stage prefix; only code 0 yields a success carrying the server's
payload. -/
theorem directUpload_response_handling (response : HttpResponse) :
    (response.ok = false →
      directUpload response = .error (.httpError response.status)) ∧
    (response.ok = true → response.body.code ≠ 0 →
      directUpload response = .error (.uploadFailed (response.body.message.getD "")) ∧
      (MetaFsError.uploadFailed (response.body.message.getD "")).message =
        "DirectUpload failed: " ++ response.body.message.getD "") ∧
    (response.ok = true → response.body.code = 0 →
      directUpload response = .ok response.body.data) ∧
    (∀ result, directUpload response = .ok result →
      response.ok = true ∧ response.body.code = 0 ∧ result = response.body.data) := by
  refine ⟨?_, ?_, ?_, ?_⟩
  · intro h
    simp [directUpload, h]
  · intro h hc
    exact ⟨by simp [directUpload, h, hc], rfl⟩
  · intro h hc
    simp [directUpload, h, hc]
  · intro result hres
    cases hok : response.ok with
    | false => simp [directUpload, hok] at hres
    | true =>
        by_cases hc : response.body.code = 0
        · simp [directUpload, hok, hc] at hres
          exact ⟨rfl, hc, hres.symm⟩
        · simp [directUpload, hok, hc] at hres

/-- Witness for C8 at the spec scenario: a response with code 1 and message
"insufficient fee" surfaces a terminal failure carrying that message. -/
theorem directUpload_response_handling_witness :
    (sampleResponse.ok = true ∧ sampleResponse.body.code ≠ 0) ∧
    (directUpload sampleResponse = .error (.uploadFailed "insufficient fee") ∧
      (MetaFsError.uploadFailed "insufficient fee").message =
        "DirectUpload failed: insufficient fee") :=
  ⟨⟨rfl, by decide⟩,
    (directUpload_response_handling sampleResponse).2.1 rfl (by decide)⟩

/-! ## Lemmas about the output-matching scan -/

lemma findMergedOutputAux_none_iff (ownAddress : String) :
    ∀ (os : List TxOutput) (k : Nat),
      findMergedOutputAux ownAddress k os = none ↔
        ∀ o ∈ os, o.script.toAddress ≠ some ownAddress := by
  intro os
  induction os with
  | nil => intro k; simp [findMergedOutputAux]
  | cons x xs ih =>
      intro k
      by_cases hx : x.script.toAddress = some ownAddress
      · simp [findMergedOutputAux, hx]
      · simp [findMergedOutputAux, hx, ih (k + 1)]

lemma findMergedOutputAux_some (ownAddress : String) :
    ∀ (os : List TxOutput) (k i : Nat) (o : TxOutput),
      findMergedOutputAux ownAddress k os = some (i, o) →
      ∃ m, i = k + m ∧ os[m]? = some o ∧ o.script.toAddress = some ownAddress ∧
        ∀ j, j < m → ∀ oj, os[j]? = some oj →
          oj.script.toAddress ≠ some ownAddress := by
  intro os
  induction os with
  | nil => intro k i o h; simp [findMergedOutputAux] at h
  | cons x xs ih =>
      intro k i o h
      by_cases hx : x.script.toAddress = some ownAddress
      · simp [findMergedOutputAux, hx] at h
        obtain ⟨hi, ho⟩ := h
        subst ho
        exact ⟨0, by omega, by simp, hx, fun j hj => by omega⟩
      · simp [findMergedOutputAux, hx] at h
        obtain ⟨m, him, hm, ho, hmin⟩ := ih (k + 1) i o h
        refine ⟨m + 1, by omega, by simpa using hm, ho, ?_⟩
        intro j hj oj hoj
        cases j with
        | zero =>
            simp at hoj
            subst hoj
            exact hx
        | succ j' =>
            exact hmin j' (by omega) oj (by simpa using hoj)

lemma findMergedOutputAux_of_first (ownAddress : String) :
    ∀ (os : List TxOutput) (k m : Nat) (o : TxOutput),
      os[m]? = some o → o.script.toAddress = some ownAddress →
      (∀ j, j < m → ∀ oj, os[j]? = some oj →
        oj.script.toAddress ≠ some ownAddress) →
      findMergedOutputAux ownAddress k os = some (k + m, o) := by
  intro os
  induction os with
  | nil => intro k m o hm; simp at hm
  | cons x xs ih =>
      intro k m o hm ho hmin
      cases m with
      | zero =>
          simp at hm
          subst hm
          simp [findMergedOutputAux, ho]
      | succ m' =>
          have hx : x.script.toAddress ≠ some ownAddress :=
            hmin 0 (by omega) x (by simp)
          have hrec := ih (k + 1) m' o (by simpa using hm) ho
            (fun j hj oj hoj => hmin (j + 1) (by omega) oj (by simpa using hoj))
          rw [show k + (m' + 1) = (k + 1) + m' by omega]
          simpa [findMergedOutputAux, hx] using hrec

/-! ## Claim theorems: Consolidator output matching -/

/-- C7: the output-matching step picks the first output whose locking script
decodes to the caller's own address; with a unique self-paying output it
identifies exactly that output regardless of position; and when nothing
matches, the consolidator falls back to output index 0 instead of failing. -/
theorem findMergedOutput_first_self_paying (ownAddress : String)
    (outputs : List TxOutput) :
    (∀ i o, findMergedOutput ownAddress outputs = some (i, o) →
      outputs[i]? = some o ∧ o.script.toAddress = some ownAddress ∧
      ∀ j, j < i → ∀ oj, outputs[j]? = some oj →
        oj.script.toAddress ≠ some ownAddress) ∧
    (∀ j oj, outputs[j]? = some oj → oj.script.toAddress = some ownAddress →
      (∀ k o', outputs[k]? = some o' →
        o'.script.toAddress = some ownAddress → k = j) →
      findMergedOutput ownAddress outputs = some (j, oj)) ∧
    ((∀ o ∈ outputs, o.script.toAddress ≠ some ownAddress) →
      findMergedOutput ownAddress outputs = none) ∧
    (∀ o0 rest, outputs = o0 :: rest →
      (∀ o ∈ outputs, o.script.toAddress ≠ some ownAddress) →
      ∀ u fee tid hex,
        mergeUTXOs ownAddress u fee (some (fun _ => .ok ⟨tid, hex, outputs⟩)) =
          .ok ⟨[⟨tid, 0, o0.script, o0.satoshis⟩], o0.satoshis, tid, hex⟩) := by
  refine ⟨?_, ?_, ?_, ?_⟩
  · intro i o h
    obtain ⟨m, him, hm, ho, hmin⟩ := findMergedOutputAux_some ownAddress outputs 0 i o h
    have him0 : i = m := by omega
    subst him0
    exact ⟨hm, ho, hmin⟩
  · intro j oj hj ho huniq
    have hmin : ∀ j', j' < j → ∀ oj', outputs[j']? = some oj' →
        oj'.script.toAddress ≠ some ownAddress := by
      intro j' hj' oj' hoj' hmatch
      exact absurd (huniq j' oj' hoj' hmatch) (by omega)
    have := findMergedOutputAux_of_first ownAddress outputs 0 j oj hj ho hmin
    simpa [findMergedOutput] using this
  · intro hnone
    exact (findMergedOutputAux_none_iff ownAddress outputs 0).mpr hnone
  · intro o0 rest hout hnone u fee tid hex
    have hfind : findMergedOutput ownAddress outputs = none :=
      (findMergedOutputAux_none_iff ownAddress outputs 0).mpr hnone
    subst hout
    simp [mergeUTXOs, hfind]

/-- Witness for C7: a single output paying a foreign address triggers the
index-0 fallback and the consolidator succeeds with that output. -/
theorem findMergedOutput_first_self_paying_witness :
    (∀ o ∈ [sampleForeignOutput], o.script.toAddress ≠ some "addr1") ∧
    mergeUTXOs "addr1" ⟨[], 0⟩ 500
        (some (fun _ => .ok ⟨"tx9", "hex9", [sampleForeignOutput]⟩)) =
      .ok ⟨[⟨"tx9", 0, sampleForeignOutput.script, sampleForeignOutput.satoshis⟩],
        sampleForeignOutput.satoshis, "tx9", "hex9"⟩ :=
  ⟨by decide,
    (findMergedOutput_first_self_paying "addr1" [sampleForeignOutput]).2.2.2
      sampleForeignOutput [] rfl (by decide) ⟨[], 0⟩ 500 "tx9" "hex9"⟩

/-! ## Claim theorems: Consolidator merged amount -/

/-- C4 as stated is false: the consolidator reads the merged amount back
from the wallet's signed transaction, so a delegate response whose
self-paying output holds 1000 satoshis while the declared fee target was
500 makes the consolidator succeed with amount 1000, not the declared
target. -/
theorem mergeUTXOs_amount_counterexample :
    mergeUTXOs "addr1" ⟨[], 0⟩ 500
        (some (fun _ => .ok ⟨"tx1", "hex1", [⟨buildPublicKeyHashOut "addr1", 1000⟩]⟩)) =
      .ok ⟨[⟨"tx1", 0, buildPublicKeyHashOut "addr1", 1000⟩], 1000, "tx1", "hex1"⟩ ∧
    (⟨buildPublicKeyHashOut "addr1", 1000⟩ : TxOutput).script.toAddress = some "addr1" ∧
    (1000 : Nat) ≠ 500 :=
  ⟨rfl, rfl, by decide⟩

/-- C4 amended: whenever the delegate's signed transaction preserves the
declared output — its outputs are the declared single output (amount = fee
target, paying the caller's own address) followed by any wallet-appended
outputs — the consolidator returns exactly the singleton merged output with
amount equal to the declared fee-estimate target, at output index 0,
together with the delegate's transaction id and raw bytes. -/
theorem mergeUTXOs_declared_amount (ownAddress : String) (u : UTXOData) (fee : Nat)
    (payFn : MergeTxDecl → Except String PayResponse) (tid hex : String)
    (extras : List TxOutput)
    (hpay : payFn ⟨10, [⟨buildPublicKeyHashOut ownAddress, fee⟩]⟩ =
      .ok ⟨tid, hex, ⟨buildPublicKeyHashOut ownAddress, fee⟩ :: extras⟩) :
    mergeUTXOs ownAddress u fee (some payFn) =
      .ok ⟨[⟨tid, 0, buildPublicKeyHashOut ownAddress, fee⟩], fee, tid, hex⟩ := by
  simp only [mergeUTXOs]
  rw [hpay]
  simp [findMergedOutput, findMergedOutputAux, buildPublicKeyHashOut]

/-- Witness for the amended C4 with a delegate that appends one change
output after the declared one. -/
theorem mergeUTXOs_declared_amount_witness :
    samplePayFn ⟨10, [⟨buildPublicKeyHashOut "addr1", 500⟩]⟩ =
      .ok ⟨"tx1", "hex1",
        ⟨buildPublicKeyHashOut "addr1", 500⟩ :: [⟨buildPublicKeyHashOut "addr2", 250⟩]⟩ ∧
    mergeUTXOs "addr1" ⟨[], 0⟩ 500 (some samplePayFn) =
      .ok ⟨[⟨"tx1", 0, buildPublicKeyHashOut "addr1", 500⟩], 500, "tx1", "hex1"⟩ :=
  ⟨rfl, mergeUTXOs_declared_amount "addr1" ⟨[], 0⟩ 500 samplePayFn "tx1" "hex1"
    [⟨buildPublicKeyHashOut "addr2", 250⟩] rfl⟩

/-! ## Lemmas about the fee estimator -/

lemma estimatedTxSize_eq (s : Nat) : estimatedTxSize s = 559 + s := by
  have h : ("/file" : String).length = 5 := rfl
  simp [estimatedTxSize, metadataSize, h]
  omega

/-! ## Claim theorems: Fee Estimator -/

/-- C3 as stated is false in two points: the code coerces a reported fee
rate of 0 to 1 (`mvcFeeRate() || 1`), so at rate 0 the returned fee is 671,
not the 0 the claimed formula gives; and for the fractional rate 1/2 the
fee is not strictly increasing in the file size (sizes 0 and 1 both yield
336). -/
theorem estimateUploadFee_rate_counterexample :
    estimateUploadFee 0 0 = 671 ∧ specMarginedFee 0 0 = 0 ∧
    estimateUploadFee 0 (1 / 2) = 336 ∧ estimateUploadFee 1 (1 / 2) = 336 := by
  refine ⟨?_, ?_, ?_, ?_⟩
  · norm_num [estimateUploadFee, estimatedTxSize_eq]
    rw [Int.ceil_eq_iff]
    norm_num
  · norm_num [specMarginedFee, estimatedTxSize_eq]
  · norm_num [estimateUploadFee, estimatedTxSize_eq]
    rw [show ⌈(559 : ℚ) / 2⌉ = 280 from by rw [Int.ceil_eq_iff]; norm_num]
    rw [Int.ceil_eq_iff]
    norm_num
  · norm_num [estimateUploadFee, estimatedTxSize_eq]

/-- C3 amended: for every positive reported rate the returned fee is
exactly `ceil(ceil(estimatedTxSize * rate) * 1.2)` (at reported rate 0 the
code substitutes rate 1); the result is a non-negative integer for every
rate ≥ 0, non-decreasing in the file size for every rate ≥ 0, and strictly
increasing in the file size for every rate ≥ 1. -/
theorem estimateUploadFee_props :
    (∀ (fileSize : Nat) (rate : ℚ), 0 < rate →
      estimateUploadFee fileSize rate = specMarginedFee fileSize rate) ∧
    (∀ fileSize : Nat, estimateUploadFee fileSize 0 = estimateUploadFee fileSize 1) ∧
    (∀ (fileSize : Nat) (rate : ℚ), 0 ≤ rate → 0 ≤ estimateUploadFee fileSize rate) ∧
    (∀ (s₁ s₂ : Nat) (rate : ℚ), s₁ ≤ s₂ → 0 ≤ rate →
      estimateUploadFee s₁ rate ≤ estimateUploadFee s₂ rate) ∧
    (∀ (s₁ s₂ : Nat) (rate : ℚ), s₁ < s₂ → 1 ≤ rate →
      estimateUploadFee s₁ rate < estimateUploadFee s₂ rate) := by
  refine ⟨?_, ?_, ?_, ?_, ?_⟩
  · intro s r hr
    have hne : r ≠ 0 := ne_of_gt hr
    simp [estimateUploadFee, specMarginedFee, hne]
  · intro s
    simp [estimateUploadFee]
  · intro s r hr
    have he : (0 : ℚ) ≤ (if r = 0 then 1 else r) := by
      split_ifs with h
      · norm_num
      · exact hr
    simp only [estimateUploadFee]
    have h1 : (0 : ℤ) ≤ ⌈(estimatedTxSize s : ℚ) * (if r = 0 then 1 else r)⌉ :=
      Int.ceil_nonneg (mul_nonneg (Nat.cast_nonneg _) he)
    exact Int.ceil_nonneg (mul_nonneg (by exact_mod_cast h1) (by norm_num))
  · intro s₁ s₂ r hs hr
    have he : (0 : ℚ) ≤ (if r = 0 then 1 else r) := by
      split_ifs with h
      · norm_num
      · exact hr
    simp only [estimateUploadFee]
    have hsize : ((estimatedTxSize s₁ : ℚ)) ≤ (estimatedTxSize s₂ : ℚ) := by
      have hn : estimatedTxSize s₁ ≤ estimatedTxSize s₂ := by
        rw [estimatedTxSize_eq, estimatedTxSize_eq]
        omega
      exact_mod_cast hn
    have hc1 := Int.ceil_le_ceil (mul_le_mul_of_nonneg_right hsize he)
    exact Int.ceil_le_ceil
      (mul_le_mul_of_nonneg_right (by exact_mod_cast hc1) (by norm_num))
  · intro s₁ s₂ r hs hr
    have hne : r ≠ 0 := by
      intro h0
      rw [h0] at hr
      norm_num at hr
    have hr0 : (0 : ℚ) < r := lt_of_lt_of_le one_pos hr
    simp only [estimateUploadFee, if_neg hne]
    have hsize : (estimatedTxSize s₁ : ℚ) + 1 ≤ (estimatedTxSize s₂ : ℚ) := by
      have hn : estimatedTxSize s₁ + 1 ≤ estimatedTxSize s₂ := by
        rw [estimatedTxSize_eq, estimatedTxSize_eq]
        omega
      exact_mod_cast hn
    have hmul : ((estimatedTxSize s₁ : ℚ) + 1) * r ≤ (estimatedTxSize s₂ : ℚ) * r :=
      mul_le_mul_of_nonneg_right hsize hr0.le
    have step1 : (estimatedTxSize s₁ : ℚ) * r + 1 ≤ (estimatedTxSize s₂ : ℚ) * r := by
      nlinarith
    have hc : ⌈(estimatedTxSize s₁ : ℚ) * r⌉ + 1 ≤ ⌈(estimatedTxSize s₂ : ℚ) * r⌉ := by
      rw [← Int.ceil_add_one]
      exact Int.ceil_le_ceil step1
    have hcast : ((⌈(estimatedTxSize s₁ : ℚ) * r⌉ : ℚ) + 1) ≤
        (⌈(estimatedTxSize s₂ : ℚ) * r⌉ : ℚ) := by
      exact_mod_cast hc
    have hm : (⌈(estimatedTxSize s₁ : ℚ) * r⌉ : ℚ) * (6 / 5) + 1 ≤
        (⌈(estimatedTxSize s₂ : ℚ) * r⌉ : ℚ) * (6 / 5) := by
      linarith
    have hfinal : ⌈(⌈(estimatedTxSize s₁ : ℚ) * r⌉ : ℚ) * (6 / 5)⌉ + 1 ≤
        ⌈(⌈(estimatedTxSize s₂ : ℚ) * r⌉ : ℚ) * (6 / 5)⌉ := by
      rw [← Int.ceil_add_one]
      exact Int.ceil_le_ceil hm
    omega

/-- Witness for the amended C3 at file sizes 0 and 1, rate 1. -/
theorem estimateUploadFee_props_witness :
    ((0 : ℚ) < 1 ∧ (0 : Nat) ≤ 1 ∧ (0 : Nat) < 1 ∧ (0 : ℚ) ≤ 1 ∧ (1 : ℚ) ≤ 1) ∧
    estimateUploadFee 0 1 = specMarginedFee 0 1 ∧
    estimateUploadFee 0 0 = estimateUploadFee 0 1 ∧
    0 ≤ estimateUploadFee 0 1 ∧
    estimateUploadFee 0 1 ≤ estimateUploadFee 1 1 ∧
    estimateUploadFee 0 1 < estimateUploadFee 1 1 :=
  ⟨⟨by norm_num, by norm_num, by norm_num, by norm_num, le_refl 1⟩,
    estimateUploadFee_props.1 0 1 (by norm_num),
    estimateUploadFee_props.2.1 0,
    estimateUploadFee_props.2.2.1 0 1 (by norm_num),
    estimateUploadFee_props.2.2.2.1 0 1 1 (by norm_num) (by norm_num),
    estimateUploadFee_props.2.2.2.2 0 1 1 (by norm_num) (le_refl 1)⟩

/-! ## Lemmas about decimal digits and the pointer split -/

lemma digitChar_isDigit (m : Nat) (h : m < 10) : (Nat.digitChar m).isDigit = true := by
  interval_cases m <;> decide

lemma parseDigit_digitChar (m : Nat) (h : m < 10) :
    parseDigit (Nat.digitChar m) = m := by
  interval_cases m <;> decide

lemma reprDigitsAux_append : ∀ (n : Nat) (ds : List Char),
    reprDigitsAux n ds = reprDigitsAux n [] ++ ds := by
  intro n
  induction n using Nat.strong_induction_on with
  | _ n ih =>
      intro ds
      by_cases h : n / 10 = 0
      · conv_lhs => rw [reprDigitsAux]
        conv_rhs => rw [reprDigitsAux]
        rw [dif_pos h, dif_pos h]
        simp
      · have hpos : 0 < n := Nat.pos_of_ne_zero (fun h0 => h (by simp [h0]))
        have hlt : n / 10 < n := Nat.div_lt_self hpos (by norm_num)
        conv_lhs => rw [reprDigitsAux]
        conv_rhs => rw [reprDigitsAux]
        rw [dif_neg h, dif_neg h]
        rw [ih _ hlt (Nat.digitChar (n % 10) :: ds), ih _ hlt [Nat.digitChar (n % 10)]]
        simp

lemma toDigitsCore_eq_reprDigitsAux :
    ∀ (fuel n : Nat) (ds : List Char), n < fuel →
      Nat.toDigitsCore 10 fuel n ds = reprDigitsAux n ds := by
  intro fuel
  induction fuel with
  | zero => intro n ds h; omega
  | succ f ih =>
      intro n ds h
      rw [reprDigitsAux]
      by_cases h0 : n / 10 = 0
      · simp [Nat.toDigitsCore, h0]
      · have hpos : 0 < n := Nat.pos_of_ne_zero (fun hz => h0 (by simp [hz]))
        have hlt : n / 10 < n := Nat.div_lt_self hpos (by norm_num)
        rw [dif_neg h0]
        simp only [Nat.toDigitsCore, h0, if_false]
        exact ih (n / 10) _ (by omega)

lemma repr_data (n : Nat) : (Nat.repr n).data = reprDigitsAux n [] := by
  show (Nat.toDigits 10 n).asString.data = _
  have hd : (Nat.toDigits 10 n).asString.data = Nat.toDigits 10 n := rfl
  rw [hd]
  exact toDigitsCore_eq_reprDigitsAux (n + 1) n [] (by omega)

lemma reprDigits_all_isDigit :
    ∀ n : Nat, ∀ c ∈ reprDigitsAux n [], c.isDigit = true := by
  intro n
  induction n using Nat.strong_induction_on with
  | _ n ih =>
      intro c hc
      by_cases h : n / 10 = 0
      · rw [reprDigitsAux, dif_pos h] at hc
        simp at hc
        subst hc
        exact digitChar_isDigit _ (Nat.mod_lt _ (by norm_num))
      · have hpos : 0 < n := Nat.pos_of_ne_zero (fun h0 => h (by simp [h0]))
        have hlt : n / 10 < n := Nat.div_lt_self hpos (by norm_num)
        rw [reprDigitsAux, dif_neg h, reprDigitsAux_append] at hc
        rcases List.mem_append.mp hc with h1 | h2
        · exact ih (n / 10) hlt c h1
        · simp at h2
          subst h2
          exact digitChar_isDigit _ (Nat.mod_lt _ (by norm_num))

lemma reprDigits_ne_nil (n : Nat) : reprDigitsAux n [] ≠ [] := by
  rw [reprDigitsAux]
  by_cases h : n / 10 = 0
  · simp [h]
  · rw [dif_neg h, reprDigitsAux_append]
    simp

lemma foldl_reprDigitsAux : ∀ (n a : Nat),
    List.foldl (fun a c => a * 10 + parseDigit c) a (reprDigitsAux n []) =
      a * 10 ^ (reprDigitsAux n []).length + n := by
  intro n
  induction n using Nat.strong_induction_on with
  | _ n ih =>
      intro a
      by_cases h : n / 10 = 0
      · have hn : n < 10 := by omega
        rw [reprDigitsAux, dif_pos h]
        simp [Nat.mod_eq_of_lt hn, parseDigit_digitChar n hn]
      · have hpos : 0 < n := Nat.pos_of_ne_zero (fun h0 => h (by simp [h0]))
        have hlt : n / 10 < n := Nat.div_lt_self hpos (by norm_num)
        rw [reprDigitsAux, dif_neg h, reprDigitsAux_append, List.foldl_append]
        rw [ih (n / 10) hlt a]
        simp only [List.foldl_cons, List.foldl_nil, List.length_append,
          List.length_cons, List.length_nil]
        rw [parseDigit_digitChar (n % 10) (Nat.mod_lt _ (by norm_num))]
        calc (a * 10 ^ (reprDigitsAux (n / 10) []).length + n / 10) * 10 + n % 10
            = a * (10 ^ (reprDigitsAux (n / 10) []).length * 10) +
                (10 * (n / 10) + n % 10) := by ring
          _ = a * 10 ^ ((reprDigitsAux (n / 10) []).length + 1) + n := by
              rw [← pow_succ, Nat.div_add_mod]

lemma parseDecimal_repr (n : Nat) : parseDecimal (reprDigitsAux n []) = some n := by
  unfold parseDecimal
  rw [isEmpty_false_of_ne_nil (reprDigits_ne_nil n)]
  rw [if_neg (by simp)]
  rw [if_pos (List.all_eq_true.mpr (fun c hc => reprDigits_all_isDigit n c hc))]
  rw [foldl_reprDigitsAux n 0]
  simp

lemma takeWhile_append_eq {α : Type} (p : α → Bool) :
    ∀ (xs : List α) (y : α) (ys : List α), (∀ x ∈ xs, p x = true) → p y = false →
      (xs ++ y :: ys).takeWhile p = xs ∧ (xs ++ y :: ys).dropWhile p = y :: ys := by
  intro xs
  induction xs with
  | nil =>
      intro y ys _ hy
      simp [List.takeWhile_cons, List.dropWhile_cons, hy]
  | cons x xs ih =>
      intro y ys hall hy
      have hx : p x = true := hall x (by simp)
      obtain ⟨h1, h2⟩ := ih y ys (fun z hz => hall z (by simp [hz])) hy
      simp [List.takeWhile_cons, List.dropWhile_cons, hx, h1, h2]

lemma splitAtLast_append (c : Char) (l₁ l₂ : List Char) (h : c ∉ l₂) :
    splitAtLast c (l₁ ++ c :: l₂) = some (l₁, l₂) := by
  have hall : ∀ x ∈ l₂.reverse, (fun x => decide (x ≠ c)) x = true := by
    intro x hx
    have hxl : x ∈ l₂ := List.mem_reverse.mp hx
    exact decide_eq_true (fun he => h (he ▸ hxl))
  have hc : (fun x => decide (x ≠ c)) c = false :=
    decide_eq_false (fun hne => hne rfl)
  have hrev : (l₁ ++ c :: l₂).reverse = l₂.reverse ++ c :: l₁.reverse := by
    simp
  obtain ⟨ht, hd⟩ :=
    takeWhile_append_eq (fun x => decide (x ≠ c)) l₂.reverse c l₁.reverse hall hc
  simp only [splitAtLast]
  rw [hrev, ht, hd]
  simp

/-! ## Claim theorems: asset pointer -/

/-- C9: the asset pointer `{scheme}://{txId}i{outputIndex}` decodes back to
the same pair whenever the transaction id contains no letter i (hexadecimal
ids never do): stripping the scheme prefix and splitting at the last i
recovers exactly `(txId, outputIndex)`; moreover the pointer the uploader
produces is exactly this format at scheme `metafile` and index 0. -/
theorem assetPointer_roundtrip (scheme txId : String) (idx : Nat)
    (_h : 'i' ∉ txId.data) :
    decodeAssetPointer scheme (mkAssetPointer scheme txId idx) = some (txId, idx) ∧
    uploadFilePinId txId = mkAssetPointer "metafile" txId 0 := by
  constructor
  · have hno : 'i' ∉ reprDigitsAux idx [] := by
      intro hmem
      have := reprDigits_all_isDigit idx 'i' hmem
      exact absurd this (by decide)
    have hdata : (mkAssetPointer scheme txId idx).data =
        (scheme ++ "://").data ++ (txId.data ++ 'i' :: reprDigitsAux idx []) := by
      simp [mkAssetPointer, repr_data, show ("i" : String).data = ['i'] from rfl]
    simp only [decodeAssetPointer]
    rw [hdata, List.take_left, List.drop_left, if_pos rfl,
      splitAtLast_append 'i' txId.data (reprDigitsAux idx []) hno]
    simp [parseDecimal_repr]
  · rw [uploadFilePinId, mkAssetPointer,
      show ("metafile://" : String) = "metafile" ++ "://" from by decide,
      show ("i0" : String) = "i" ++ Nat.repr 0 from by decide,
      ← String.append_assoc]

/-- Witness for C9 at the hexadecimal transaction id abc123 and index 0. -/
theorem assetPointer_roundtrip_witness :
    ('i' ∉ ("abc123" : String).data) ∧
    (decodeAssetPointer "metafile" (mkAssetPointer "metafile" "abc123" 0) =
        some ("abc123", 0) ∧
      uploadFilePinId "abc123" = mkAssetPointer "metafile" "abc123" 0) :=
  ⟨by decide, assetPointer_roundtrip "metafile" "abc123" 0 (by decide)⟩

end MetaFs
